import Mathlib

set_option maxHeartbeats 1000000

namespace TimetableCVD

/-- Employee type: full-time or part-time. -/
inductive EmpType
  | fullTime
  | partTime
deriving DecidableEq, Repr, BEq

/-- Employee record, as in the Employee interface of src/app/page.tsx. -/
structure Employee where
  id : String
  name : String
  position : String
  branch : String
  type : EmpType
deriving DecidableEq, Repr, BEq

/-- A shift entry is either a bare state tag (a string such as "เช้า", "บ่าย",
"หยุด", "ลา", "ป่วย", "ปิด", "") or a working-assignment object carrying a
shift type and a branch, as in the ShiftEntry union of src/app/page.tsx. -/
inductive ShiftEntry
  | tag (s : String)
  | working (t : String) (branch : String)
deriving DecidableEq, Repr, BEq

/-- Structural test for the working-assignment shape, as the
isWorkingShiftObject type guard of src/app/page.tsx (an absent entry is not
a working object). -/
def isWorkingShiftObject : Option ShiftEntry → Bool
  | some (ShiftEntry.working _ _) => true
  | _ => false

/-- The dayNames array of src/app/page.tsx: the seven Thai weekday names
followed by the "none" sentinel. -/
def dayNames : List String :=
  ["อาทิตย์", "จันทร์", "อังคาร", "พุธ", "พฤหัสบดี", "ศุกร์", "เสาร์", "ไม่มี"]

/-- The clinic day-off gate condition computed in handleShiftChange and
getShiftValue: the date's weekday name equals the configured clinic day off
and that setting is not the "none" sentinel. -/
def isClinicDayOffCell (clinicDayOff : String) (dayOfWeek : Nat) : Bool :=
  dayNames.getD dayOfWeek "" == clinicDayOff && clinicDayOff != "ไม่มี"

/-- Messages sent to the modal prompt surface by the handlers of
src/app/page.tsx. -/
inductive Notice
  | clinicClosed (dayName : String)
  | partTimeConflict (workingBranch : String) (viewedBranch : String)
  | incompleteData
deriving DecidableEq, Repr, BEq

section AssocList

variable {α : Type}

/-- Key lookup in a JavaScript-object-like association list. -/
def lookupA : List (String × α) → String → Option α
  | [], _ => none
  | p :: rest, k => if p.1 == k then some p.2 else lookupA rest k

/-- Key insertion/overwrite in a JavaScript-object-like association list:
an existing key keeps its position, a new key is appended at the end. -/
def insertA : List (String × α) → String → α → List (String × α)
  | [], k, v => [(k, v)]
  | p :: rest, k, v => if p.1 == k then (k, v) :: rest else p :: insertA rest k v

/-- Key deletion in a JavaScript-object-like association list. -/
def eraseA : List (String × α) → String → List (String × α)
  | [], _ => []
  | p :: rest, k => if p.1 == k then eraseA rest k else p :: eraseA rest k

end AssocList

/-- The MonthlySchedule store of src/app/page.tsx: date key to
(employee id to shift entry). -/
abbrev MonthlySchedule : Type := List (String × List (String × ShiftEntry))

/-- Read the stored shift entry for a date key and employee id. -/
def getEntry (sched : MonthlySchedule) (dateKey empId : String) : Option ShiftEntry :=
  match lookupA sched dateKey with
  | some inner => lookupA inner empId
  | none => none

/-- Write a shift entry for a date key and employee id, creating the date's
inner mapping lazily when absent (the newSchedule[dateKey] = {} step of
handleShiftChange). -/
def setEntry (sched : MonthlySchedule) (dateKey empId : String) (v : ShiftEntry) :
    MonthlySchedule :=
  insertA sched dateKey (insertA ((lookupA sched dateKey).getD []) empId v)

/-- The UI state handleShiftChange and getShiftValue close over: the roster,
the branch list, the branch currently viewed, and the configured clinic
day off. -/
structure ScheduleCtx where
  employees : List Employee
  branches : List String
  selectedBranch : String
  clinicDayOff : String
deriving Repr

/-- The other-branch scan of handleShiftChange: walk the branch list, skip
the selected branch, and report the stored entry's branch as the conflict as
soon as the (branch-independent) stored entry is a working-assignment
object. -/
def conflictScan (branches : List String) (selectedBranch : String)
    (entry : Option ShiftEntry) : Option String :=
  match branches with
  | [] => none
  | b :: rest =>
    if b == selectedBranch then conflictScan rest selectedBranch entry
    else
      match entry with
      | some (ShiftEntry.working _ wb) => some wb
      | _ => conflictScan rest selectedBranch entry

/-- handleShiftChange of src/app/page.tsx, with the date key and weekday
passed explicitly (the source derives both from the active year, month and
day). Returns the new store and the modal notice, if any. -/
def handleShiftChange (ctx : ScheduleCtx) (sched : MonthlySchedule)
    (employeeId dateKey : String) (dayOfWeek : Nat) (value : String) :
    MonthlySchedule × Option Notice :=
  match ctx.employees.find? (fun e => e.id == employeeId) with
  | none => (sched, none)
  | some employee =>
    if isClinicDayOffCell ctx.clinicDayOff dayOfWeek then
      if value != "ปิด" then
        (sched, some (Notice.clinicClosed (dayNames.getD dayOfWeek "")))
      else
        (setEntry sched dateKey employeeId (ShiftEntry.tag "ปิด"), none)
    else
      match employee.type with
      | EmpType.partTime =>
        if value == "เช้า" || value == "บ่าย" then
          match conflictScan ctx.branches ctx.selectedBranch
              (getEntry sched dateKey employee.id) with
          | some wb =>
            (sched, some (Notice.partTimeConflict wb ctx.selectedBranch))
          | none =>
            (setEntry sched dateKey employeeId
              (ShiftEntry.working value ctx.selectedBranch), none)
        else
          (setEntry sched dateKey employeeId (ShiftEntry.tag value), none)
      | EmpType.fullTime =>
        (setEntry sched dateKey employeeId (ShiftEntry.tag value), none)

/-- getShiftValue of src/app/page.tsx: the effective display tag for an
employee id on a date when viewing the selected branch. -/
def getShiftValue (ctx : ScheduleCtx) (sched : MonthlySchedule)
    (employeeId dateKey : String) (dayOfWeek : Nat) : String :=
  match ctx.employees.find? (fun e => e.id == employeeId) with
  | none => ""
  | some employee =>
    if isClinicDayOffCell ctx.clinicDayOff dayOfWeek then "ปิด"
    else
      match employee.type, getEntry sched dateKey employee.id with
      | EmpType.fullTime, some (ShiftEntry.tag s) => s
      | EmpType.fullTime, _ => ""
      | EmpType.partTime, some (ShiftEntry.working t wb) =>
        if wb == ctx.selectedBranch then t else ""
      | EmpType.partTime, some (ShiftEntry.tag s) => s
      | EmpType.partTime, none => ""

/-- getDailyStaffCount of src/app/page.tsx: iterate over all employees,
count nobody when the clinic is closed that weekday, count a full-time
employee when they belong to the selected branch and their stored entry is a
working tag, and count a part-time employee when their stored entry is a
working-assignment object at the selected branch. -/
def getDailyStaffCount (ctx : ScheduleCtx) (sched : MonthlySchedule)
    (dateKey : String) (dayOfWeek : Nat) : Nat :=
  (ctx.employees.filter (fun employee =>
    if isClinicDayOffCell ctx.clinicDayOff dayOfWeek then false
    else
      match employee.type, getEntry sched dateKey employee.id with
      | EmpType.fullTime, some (ShiftEntry.tag s) =>
        employee.branch == ctx.selectedBranch && (s == "เช้า" || s == "บ่าย")
      | EmpType.fullTime, _ => false
      | EmpType.partTime, some (ShiftEntry.working t wb) =>
        wb == ctx.selectedBranch && (t == "เช้า" || t == "บ่าย")
      | EmpType.partTime, _ => false)).length

/-- JavaScript String.prototype.trim: drop whitespace from both ends. -/
def jsTrim (s : String) : String :=
  ⟨((s.data.dropWhile Char.isWhitespace).reverse.dropWhile
      Char.isWhitespace).reverse⟩

/-- Draft employee entered in the add form (no id yet). -/
structure EmployeeDraft where
  name : String
  position : String
  branch : String
  type : EmpType
deriving DecidableEq, Repr, BEq

/-- handleAddEmployee of src/app/page.tsx: validate the draft, generate the
id from the count of same-type employees, force the pool-sentinel branch for
part-time staff, and append; on validation failure notify the prompt surface
and leave the roster unchanged. -/
def handleAddEmployee (employees : List Employee) (d : EmployeeDraft) :
    List Employee × Option Notice :=
  if jsTrim d.name != "" && jsTrim d.position != "" &&
      (d.type == EmpType.partTime || jsTrim d.branch != "") then
    let idPref := if d.type == EmpType.fullTime then "emp" else "pte"
    let newId := idPref ++ toString
      ((employees.filter (fun e => e.type == d.type)).length + 1)
    let newEmp : Employee :=
      { id := newId, name := d.name, position := d.position,
        branch := if d.type == EmpType.partTime then "พาร์ทไทม์" else d.branch,
        type := d.type }
    (employees ++ [newEmp], none)
  else
    (employees, some Notice.incompleteData)

/-- The schedule-store cleanup of handleDeleteEmployee's confirm handler:
remove the employee's key from every date's inner mapping, and drop any date
whose inner mapping becomes empty. -/
def deleteEmployeeCascade (sched : MonthlySchedule) (id : String) :
    MonthlySchedule :=
  (sched.map (fun p => (p.1, eraseA p.2 id))).filter
    (fun p => p.2.length != 0)

/-- The confirm branch of handleDeleteEmployee of src/app/page.tsx: filter
the employee out of the roster and cascade into the schedule store. -/
def handleDeleteEmployee (employees : List Employee) (sched : MonthlySchedule)
    (id : String) : List Employee × MonthlySchedule :=
  (employees.filter (fun emp => emp.id != id), deleteEmployeeCascade sched id)

/-- saveEditEmployee of src/app/page.tsx: replace the employee being edited,
forcing the pool-sentinel branch when the edited type is part-time. -/
def saveEditEmployee (employees : List Employee) (editingId : String)
    (edited : Employee) : List Employee :=
  employees.map (fun emp =>
    if emp.id == editingId then
      { edited with branch :=
          if edited.type == EmpType.partTime then "พาร์ทไทม์" else edited.branch }
    else emp)

/-- A persisted schedules document, as read by loadScheduleFromFirestore:
an employee list, a schedule mapping employee id to (day key to shift
entry), and a single date string. -/
structure ScheduleDoc where
  employees : List Employee
  schedule : List (String × List (String × ShiftEntry))
  date : String
deriving Repr

/-- The decode loop of loadScheduleFromFirestore: for every employee id and
every day of the document's schedule, write the shift into the store — at
the document's single date field (the inner day key is not used as the
store key). -/
def decodeSchedule (latest : ScheduleDoc) : MonthlySchedule :=
  latest.schedule.foldl (fun acc p =>
    p.2.foldl (fun acc2 q => setEntry acc2 latest.date p.1 q.2) acc) []

/-- loadScheduleFromFirestore of src/app/page.tsx: when at least one
document exists, decode the first one into the roster and the schedule
store; otherwise leave the state untouched. -/
def loadSchedule (docs : List ScheduleDoc) :
    Option (List Employee × MonthlySchedule) :=
  match docs with
  | [] => none
  | latest :: _ => some (latest.employees, decodeSchedule latest)

/-- A shift entry that is a working-assignment object. -/
def isWorkingEntry : ShiftEntry → Bool
  | ShiftEntry.working _ _ => true
  | _ => false

/-- How many working-assignment objects the whole store holds for one
employee on one date, counting every slot of the association-list
representation. -/
def workingAssignmentCount (sched : MonthlySchedule) (dateKey empId : String) :
    Nat :=
  (sched.map (fun p =>
    if p.1 == dateKey then
      (p.2.filter (fun q => q.1 == empId && isWorkingEntry q.2)).length
    else 0)).sum

/-- Well-formedness of the store representation: date keys are distinct and
every date's inner employee keys are distinct, as they are for JavaScript
objects. -/
def UniqKeys (sched : MonthlySchedule) : Prop :=
  (sched.map Prod.fst).Nodup ∧ ∀ p ∈ sched, ((p.2).map Prod.fst).Nodup

/-- The mutable session state: roster and schedule store. -/
structure SysState where
  employees : List Employee
  sched : MonthlySchedule

/-- States reachable from the empty startup state by the operations of
src/app/page.tsx: shift edits, roster add/edit/delete (confirmed), and the
startup load. -/
inductive Reach : SysState → Prop
  | init : Reach ⟨[], []⟩
  | shiftChange (s : SysState) (branches : List String)
      (selectedBranch clinicDayOff employeeId dateKey value : String)
      (dayOfWeek : Nat) (h : Reach s) :
      Reach ⟨s.employees,
        (handleShiftChange ⟨s.employees, branches, selectedBranch, clinicDayOff⟩
          s.sched employeeId dateKey dayOfWeek value).1⟩
  | addEmployee (s : SysState) (d : EmployeeDraft) (h : Reach s) :
      Reach ⟨(handleAddEmployee s.employees d).1, s.sched⟩
  | editEmployee (s : SysState) (editingId : String) (edited : Employee)
      (h : Reach s) :
      Reach ⟨saveEditEmployee s.employees editingId edited, s.sched⟩
  | deleteEmployee (s : SysState) (id : String) (h : Reach s) :
      Reach ⟨(handleDeleteEmployee s.employees s.sched id).1,
        (handleDeleteEmployee s.employees s.sched id).2⟩
  | load (s : SysState) (docs : List ScheduleDoc) (h : Reach s) :
      Reach (match loadSchedule docs with
        | none => s
        | some r => ⟨r.1, r.2⟩)

/-- The headcount as the spec words it (claim C7): the number of roster
employees, of any type, whose effective shift per getShiftValue at the
viewed branch on the date is a working state. -/
def specDailyHeadcount (ctx : ScheduleCtx) (sched : MonthlySchedule)
    (dateKey : String) (dayOfWeek : Nat) : Nat :=
  (ctx.employees.filter (fun e =>
    getShiftValue ctx sched e.id dateKey dayOfWeek == "เช้า" ||
    getShiftValue ctx sched e.id dateKey dayOfWeek == "บ่าย")).length

/-- Part-time employee used in the concrete scenarios. -/
def empP : Employee :=
  { id := "pte1", name := "P", position := "แพทย์แผนไทย",
    branch := "พาร์ทไทม์", type := EmpType.partTime }

/-- Full-time employee of branch A used in the concrete scenarios. -/
def empF : Employee :=
  { id := "emp1", name := "F", position := "แพทย์แผนไทย",
    branch := "A", type := EmpType.fullTime }

/-- Context for the C1 scenario: viewing branch A, no clinic day off. -/
def ctxC1 : ScheduleCtx :=
  { employees := [empP], branches := ["A", "B"], selectedBranch := "A",
    clinicDayOff := "ไม่มี" }

/-- Store for the C1 scenario: the part-timer already holds a working
assignment at the viewed branch A itself. -/
def schedC1 : MonthlySchedule :=
  [("2025-06-01", [("pte1", ShiftEntry.working "เช้า" "A")])]

/-- Context for the C7 counterexample: viewing branch B, no clinic day
off, roster holding only the branch-A full-timer. -/
def ctxC7 : ScheduleCtx :=
  { employees := [empF], branches := ["A", "B"], selectedBranch := "B",
    clinicDayOff := "ไม่มี" }

/-- Store for the C7 counterexample: the branch-A full-timer has a stored
morning tag. -/
def schedC7 : MonthlySchedule :=
  [("2025-06-02", [("emp1", ShiftEntry.tag "เช้า")])]

/-- Persisted document for the C9 scenario: two day keys for one employee,
and a document date different from both. -/
def docC9 : ScheduleDoc :=
  { employees := [empP],
    schedule := [("pte1",
      [("2025-06-02", ShiftEntry.tag "เช้า"),
       ("2025-06-03", ShiftEntry.tag "บ่าย")])],
    date := "2025-06-01" }

/-- Valid full-time draft used in the id-collision scenario. -/
def draftF : EmployeeDraft :=
  { name := "n", position := "p", branch := "A", type := EmpType.fullTime }

/-- Part-time draft whose successful add produces exactly the employee
empP. -/
def draftP : EmployeeDraft :=
  { name := "P", position := "แพทย์แผนไทย", branch := "A",
    type := EmpType.partTime }

/-- Store used by the delete-cascade witness: one date shared by both
employees, one date held only by the part-timer. -/
def schedW6 : MonthlySchedule :=
  [("2025-06-01",
    [("pte1", ShiftEntry.working "เช้า" "A"), ("emp1", ShiftEntry.tag "ลา")]),
   ("2025-06-02", [("pte1", ShiftEntry.tag "หยุด")])]

section AssocLemmas

variable {α : Type}

lemma lookupA_insertA_self (l : List (String × α)) (k : String) (v : α) :
    lookupA (insertA l k v) k = some v := by
  induction l with
  | nil => simp [insertA, lookupA]
  | cons p rest ih =>
    by_cases h : p.1 == k
    · simp [insertA, h, lookupA]
    · simp [insertA, h, lookupA, ih]

lemma lookupA_insertA_ne (l : List (String × α)) (k k' : String) (v : α)
    (h : k' ≠ k) : lookupA (insertA l k v) k' = lookupA l k' := by
  have hkk : ¬ ((k == k') = true) := by
    simp only [beq_iff_eq]
    exact fun hc => h hc.symm
  induction l with
  | nil => simp [insertA, lookupA, hkk]
  | cons p rest ih =>
    by_cases hp : p.1 == k
    · have hp' : p.1 = k := beq_iff_eq.mp hp
      simp [insertA, hp, lookupA, hp', hkk]
    · simp only [insertA, hp, if_neg]
      simp only [lookupA, ih]

lemma lookupA_eraseA_self (l : List (String × α)) (k : String) :
    lookupA (eraseA l k) k = none := by
  induction l with
  | nil => simp [eraseA, lookupA]
  | cons p rest ih =>
    by_cases h : p.1 == k
    · simp [eraseA, h, ih]
    · simp [eraseA, h, lookupA, ih]

lemma lookupA_eraseA_ne (l : List (String × α)) (k k' : String)
    (h : k' ≠ k) : lookupA (eraseA l k) k' = lookupA l k' := by
  induction l with
  | nil => simp [eraseA]
  | cons p rest ih =>
    by_cases hp : p.1 == k
    · have hp' : p.1 = k := beq_iff_eq.mp hp
      have : ¬ (p.1 == k') := by
        simp only [beq_iff_eq, hp']
        intro hc
        exact h hc.symm
      simp [eraseA, hp, lookupA, this, ih]
    · simp [eraseA, hp, lookupA, ih]

lemma lookupA_none_of_not_mem (l : List (String × α)) (k : String)
    (h : k ∉ l.map Prod.fst) : lookupA l k = none := by
  induction l with
  | nil => simp [lookupA]
  | cons p rest ih =>
    simp only [List.map_cons, List.mem_cons] at h
    push_neg at h
    have hne : ¬ (p.1 == k) := by
      simp only [beq_iff_eq]
      exact fun hc => h.1 hc.symm
    simp [lookupA, hne, ih h.2]

lemma lookupA_mem_of_some (l : List (String × α)) (k : String) (v : α)
    (h : lookupA l k = some v) : (k, v) ∈ l := by
  induction l with
  | nil => simp [lookupA] at h
  | cons p rest ih =>
    cases p with
    | mk a b =>
      by_cases hp : a == k
      · have hp' : a = k := beq_iff_eq.mp hp
        subst hp'
        simp only [lookupA, beq_self_eq_true, if_pos] at h
        cases h
        exact List.mem_cons_self _ _
      · have : ¬ (((a, b).1 == k) = true) := by simpa using hp
        simp only [lookupA, this, if_neg] at h
        exact List.mem_cons_of_mem _ (ih h)

lemma mem_insertA (l : List (String × α)) (k : String) (v : α) (x : String × α)
    (h : x ∈ insertA l k v) : x ∈ l ∨ x = (k, v) := by
  induction l with
  | nil => simp [insertA] at h; right; exact h
  | cons p rest ih =>
    by_cases hp : p.1 == k
    · simp only [insertA, hp, if_pos] at h
      rcases List.mem_cons.mp h with h1 | h1
      · right; exact h1
      · left; exact List.mem_cons_of_mem _ h1
    · simp only [insertA, hp, if_neg] at h
      simp at hp
      rcases List.mem_cons.mp h with h1 | h1
      · left; exact h1 ▸ List.mem_cons_self _ _
      · rcases ih h1 with h2 | h2
        · left; exact List.mem_cons_of_mem _ h2
        · right; exact h2

lemma keys_insertA_sub (l : List (String × α)) (k : String) (v : α)
    (x : String) (h : x ∈ (insertA l k v).map Prod.fst) :
    x ∈ l.map Prod.fst ∨ x = k := by
  rcases List.mem_map.mp h with ⟨p, hp, hx⟩
  rcases mem_insertA l k v p hp with h1 | h1
  · left; exact hx ▸ List.mem_map_of_mem Prod.fst h1
  · right
    rw [h1] at hx
    simp only at hx
    exact hx.symm

lemma keys_insertA_nodup (l : List (String × α)) (k : String) (v : α)
    (h : (l.map Prod.fst).Nodup) : ((insertA l k v).map Prod.fst).Nodup := by
  induction l with
  | nil => simp [insertA]
  | cons p rest ih =>
    by_cases hp : p.1 == k
    · have hp' : p.1 = k := beq_iff_eq.mp hp
      simp only [List.map_cons, List.nodup_cons] at h ⊢
      simp only [insertA, hp, if_pos, List.map_cons, List.nodup_cons]
      exact ⟨hp' ▸ h.1, h.2⟩
    · have hp' : p.1 ≠ k := by simpa using hp
      simp only [List.map_cons, List.nodup_cons] at h
      simp only [insertA, hp, if_neg, List.map_cons, List.nodup_cons,
        Bool.not_eq_true]
      refine ⟨fun hc => ?_, ih h.2⟩
      rcases keys_insertA_sub rest k v p.1 hc with h1 | h1
      · exact h.1 h1
      · exact hp' h1

lemma keys_eraseA_sublist (l : List (String × α)) (k : String) :
    ((eraseA l k).map Prod.fst).Sublist (l.map Prod.fst) := by
  induction l with
  | nil => simp [eraseA]
  | cons p rest ih =>
    by_cases hp : p.1 == k
    · simp only [eraseA, hp, if_pos, List.map_cons]
      exact ih.cons _
    · simp only [eraseA, hp, if_neg, List.map_cons]
      simp at hp
      exact ih.cons₂ _

end AssocLemmas

lemma getEntry_setEntry_self (sched : MonthlySchedule) (dateKey empId : String)
    (v : ShiftEntry) :
    getEntry (setEntry sched dateKey empId v) dateKey empId = some v := by
  unfold getEntry setEntry
  simp [lookupA_insertA_self]

lemma find?_some_of_mem_id (l : List Employee) (i : String)
    (h : ∃ e ∈ l, e.id = i) :
    ∃ e, l.find? (fun x => x.id == i) = some e := by
  obtain ⟨e, he, hid⟩ := h
  induction l with
  | nil => cases he
  | cons a t ih =>
    by_cases ha : a.id == i
    · exact ⟨a, List.find?_cons_of_pos t ha⟩
    · rcases List.mem_cons.mp he with h1 | h1
      · subst h1
        simp [hid] at ha
      · obtain ⟨e', he'⟩ := ih h1
        refine ⟨e', ?_⟩
        rw [List.find?_cons_of_neg t ha]
        exact he'

lemma isClinicDayOffCell_true {cdo : String} {dow : Nat}
    (hday : dayNames.getD dow "" = cdo) (hnone : cdo ≠ "ไม่มี") :
    isClinicDayOffCell cdo dow = true := by
  unfold isClinicDayOffCell
  rw [hday]
  simp [hnone]

/-- Claim C2: on a date whose weekday equals the configured clinic-wide day
off (that setting not being the none sentinel), getShiftValue returns the
clinic-closed tag for every roster employee, in every viewed branch,
whatever the store holds for that date and employee. -/
theorem C2_clinic_closed_overrides_read (ctx : ScheduleCtx)
    (sched : MonthlySchedule) (employeeId dateKey : String) (dayOfWeek : Nat)
    (hmem : ∃ e ∈ ctx.employees, e.id = employeeId)
    (hday : dayNames.getD dayOfWeek "" = ctx.clinicDayOff)
    (hnone : ctx.clinicDayOff ≠ "ไม่มี") :
    getShiftValue ctx sched employeeId dateKey dayOfWeek = "ปิด" := by
  obtain ⟨e, hfind⟩ := find?_some_of_mem_id ctx.employees employeeId hmem
  have hcell : isClinicDayOffCell ctx.clinicDayOff dayOfWeek = true :=
    isClinicDayOffCell_true hday hnone
  simp [getShiftValue, hfind, hcell]

/-- Witness for C2 at a concrete input: Sunday day off, weekday 0. -/
theorem C2_witness :
    getShiftValue
      { employees := [empP], branches := ["A"], selectedBranch := "A",
        clinicDayOff := "อาทิตย์" }
      [("2025-06-01", [("pte1", ShiftEntry.working "เช้า" "A")])]
      "pte1" "2025-06-01" 0 = "ปิด" :=
  C2_clinic_closed_overrides_read _ _ _ _ _
    (by decide) (by decide) (by decide)

/-- Claim C3: when the clinic day-off gate applies, any value other than
the clinic-closed tag is rejected as a no-op with the prompt surface
notified by the fixed clinic-closed message, while the clinic-closed tag
itself is accepted and stored as a bare tag; the gate decides the edit
before any other rule, whatever the employee type and store contents. -/
theorem C3_dayoff_gate (ctx : ScheduleCtx) (sched : MonthlySchedule)
    (employeeId dateKey : String) (dayOfWeek : Nat) (value : String)
    (hmem : ∃ e ∈ ctx.employees, e.id = employeeId)
    (hday : dayNames.getD dayOfWeek "" = ctx.clinicDayOff)
    (hnone : ctx.clinicDayOff ≠ "ไม่มี") :
    (value ≠ "ปิด" →
      handleShiftChange ctx sched employeeId dateKey dayOfWeek value =
        (sched, some (Notice.clinicClosed ctx.clinicDayOff))) ∧
    handleShiftChange ctx sched employeeId dateKey dayOfWeek "ปิด" =
      (setEntry sched dateKey employeeId (ShiftEntry.tag "ปิด"), none) := by
  obtain ⟨e, hfind⟩ := find?_some_of_mem_id ctx.employees employeeId hmem
  have hcell : isClinicDayOffCell ctx.clinicDayOff dayOfWeek = true :=
    isClinicDayOffCell_true hday hnone
  have hday' : dayNames[dayOfWeek]?.getD "" = ctx.clinicDayOff := by
    simpa using hday
  constructor
  · intro hv
    simp [handleShiftChange, hfind, hcell, hv, hday']
  · simp [handleShiftChange, hfind, hcell]

/-- Witness for C3 at a concrete input: Sunday day off, setting leave is
rejected and setting the closed tag is stored. -/
theorem C3_witness :
    (handleShiftChange
        { employees := [empF], branches := ["A"], selectedBranch := "A",
          clinicDayOff := "อาทิตย์" }
        [] "emp1" "2025-06-01" 0 "ลา" =
      ([], some (Notice.clinicClosed "อาทิตย์"))) ∧
    handleShiftChange
        { employees := [empF], branches := ["A"], selectedBranch := "A",
          clinicDayOff := "อาทิตย์" }
        [] "emp1" "2025-06-01" 0 "ปิด" =
      (setEntry [] "2025-06-01" "emp1" (ShiftEntry.tag "ปิด"), none) :=
  ⟨(C3_dayoff_gate _ _ _ _ _ "ลา" (by decide) (by decide) (by decide)).1
      (by decide),
    (C3_dayoff_gate _ _ _ _ _ "ลา" (by decide) (by decide) (by decide)).2⟩

/-- Claim C4: on a non-closed date, a part-time employee's requested
non-working bare tag (day-off, leave, sick, or empty) is stored
unconditionally as a bare tag, and the effective shift then reads back as
that same tag from every viewed branch. -/
theorem C4_nonworking_tag_override (ctx : ScheduleCtx)
    (sched : MonthlySchedule) (employeeId dateKey : String) (dayOfWeek : Nat)
    (value : String) (e : Employee)
    (hfind : ctx.employees.find? (fun x => x.id == employeeId) = some e)
    (hpt : e.type = EmpType.partTime)
    (hopen : isClinicDayOffCell ctx.clinicDayOff dayOfWeek = false)
    (hval : value = "หยุด" ∨ value = "ลา" ∨ value = "ป่วย" ∨ value = "") :
    handleShiftChange ctx sched employeeId dateKey dayOfWeek value =
      (setEntry sched dateKey employeeId (ShiftEntry.tag value), none) ∧
    ∀ b : String,
      getShiftValue { ctx with selectedBranch := b }
        (setEntry sched dateKey employeeId (ShiftEntry.tag value))
        employeeId dateKey dayOfWeek = value := by
  have hid : e.id = employeeId := by
    have := List.find?_some hfind
    simpa using this
  have hnw : ¬ ((value == "เช้า" || value == "บ่าย") = true) := by
    rcases hval with h | h | h | h <;> subst h <;> decide
  constructor
  · simp [handleShiftChange, hfind, hopen, hpt, hnw]
  · intro b
    have hget : getEntry (setEntry sched dateKey employeeId
        (ShiftEntry.tag value)) dateKey e.id = some (ShiftEntry.tag value) := by
      rw [hid]
      exact getEntry_setEntry_self sched dateKey employeeId (ShiftEntry.tag value)
    simp [getShiftValue, hfind, hopen, hpt, hget]

/-- Witness for C4 at a concrete input: sick tag stored while viewing
branch B, read back from branches A and B. -/
theorem C4_witness :
    handleShiftChange
        { employees := [empP], branches := ["A", "B"], selectedBranch := "B",
          clinicDayOff := "ไม่มี" }
        [("2025-06-01", [("pte1", ShiftEntry.working "เช้า" "A")])]
        "pte1" "2025-06-01" 1 "ป่วย" =
      (setEntry [("2025-06-01", [("pte1", ShiftEntry.working "เช้า" "A")])]
        "2025-06-01" "pte1" (ShiftEntry.tag "ป่วย"), none) ∧
    ∀ b : String,
      getShiftValue
        { employees := [empP], branches := ["A", "B"], selectedBranch := b,
          clinicDayOff := "ไม่มี" }
        (setEntry [("2025-06-01", [("pte1", ShiftEntry.working "เช้า" "A")])]
          "2025-06-01" "pte1" (ShiftEntry.tag "ป่วย"))
        "pte1" "2025-06-01" 1 = "ป่วย" :=
  C4_nonworking_tag_override _ _ _ _ _ _ empP
    (by decide) (by decide) (by decide) (by decide)

/-- Claim C10: for an employee id absent from the roster, getShiftValue
returns the empty tag and handleShiftChange leaves the store unchanged with
no notification, for every date, weekday, viewed branch and value. -/
theorem C10_unknown_id_total (ctx : ScheduleCtx) (sched : MonthlySchedule)
    (employeeId dateKey : String) (dayOfWeek : Nat) (value : String)
    (habs : ∀ e ∈ ctx.employees, e.id ≠ employeeId) :
    getShiftValue ctx sched employeeId dateKey dayOfWeek = "" ∧
    handleShiftChange ctx sched employeeId dateKey dayOfWeek value =
      (sched, none) := by
  have hfind : ctx.employees.find? (fun x => x.id == employeeId) = none := by
    rw [List.find?_eq_none]
    intro x hx
    simp [habs x hx]
  constructor
  · simp [getShiftValue, hfind]
  · simp [handleShiftChange, hfind]

/-- Witness for C10 at a concrete input: id ghost is not in the roster. -/
theorem C10_witness :
    getShiftValue
      { employees := [empP, empF], branches := ["A"], selectedBranch := "A",
        clinicDayOff := "อาทิตย์" }
      [("2025-06-01", [("ghost", ShiftEntry.tag "เช้า")])]
      "ghost" "2025-06-01" 0 = "" ∧
    handleShiftChange
      { employees := [empP, empF], branches := ["A"], selectedBranch := "A",
        clinicDayOff := "อาทิตย์" }
      [("2025-06-01", [("ghost", ShiftEntry.tag "เช้า")])]
      "ghost" "2025-06-01" 0 "เช้า" =
      ([("2025-06-01", [("ghost", ShiftEntry.tag "เช้า")])], none) :=
  C10_unknown_id_total _ _ _ _ _ _ (by
    intro e he
    simp only [List.mem_cons, List.not_mem_nil, or_false] at he
    rcases he with rfl | rfl <;> decide)

/-- Claim C1, code behavior at the failing input: the part-timer's stored
entry is a working assignment at the viewed branch A itself, yet a new
working-state edit at branch A is rejected — store unchanged and the prompt
surface notified naming branch A as the conflicting branch. -/
theorem C1_same_branch_reedit_rejected :
    getEntry schedC1 "2025-06-01" "pte1" =
      some (ShiftEntry.working "เช้า" "A") ∧
    ctxC1.selectedBranch = "A" ∧
    handleShiftChange ctxC1 schedC1 "pte1" "2025-06-01" 0 "บ่าย" =
      (schedC1, some (Notice.partTimeConflict "A" "A")) := by decide

/-- Claim C9, code behavior at the failing input: the decode loop keys
every shift by the document's single date field instead of the schedule's
day keys, so the day keys are absent from the resulting store and the last
listed shift overwrites the earlier one at the document date. -/
theorem C9_decode_collapses_days :
    loadSchedule [docC9] =
      some ([empP], [("2025-06-01", [("pte1", ShiftEntry.tag "บ่าย")])]) ∧
    getEntry (decodeSchedule docC9) "2025-06-02" "pte1" = none ∧
    getEntry (decodeSchedule docC9) "2025-06-03" "pte1" = none := by decide

/-- Claim C7 fails as stated: viewing branch B, the branch-A full-time
employee with a stored morning tag has effective shift morning (a working
state), so the count the spec describes is 1, while getDailyStaffCount
returns 0. -/
theorem C7_counterexample_offbranch_fulltimer :
    getShiftValue ctxC7 schedC7 "emp1" "2025-06-02" 1 = "เช้า" ∧
    specDailyHeadcount ctxC7 schedC7 "2025-06-02" 1 = 1 ∧
    getDailyStaffCount ctxC7 schedC7 "2025-06-02" 1 = 0 := by decide

@[simp] lemma beq_ft_pt : (EmpType.fullTime == EmpType.partTime) = false := rfl

@[simp] lemma beq_pt_ft : (EmpType.partTime == EmpType.fullTime) = false := rfl

@[simp] lemma beq_ft_ft : (EmpType.fullTime == EmpType.fullTime) = true := rfl

@[simp] lemma beq_pt_pt : (EmpType.partTime == EmpType.partTime) = true := rfl

lemma find?_id_self {l : List Employee} {e : Employee}
    (hnd : (l.map Employee.id).Nodup) (he : e ∈ l) :
    l.find? (fun x => x.id == e.id) = some e := by
  induction l with
  | nil => cases he
  | cons a t ih =>
    simp only [List.map_cons, List.nodup_cons] at hnd
    rcases List.mem_cons.mp he with rfl | h1
    · exact List.find?_cons_of_pos t (by simp)
    · have hne : ¬ ((a.id == e.id) = true) := by
        simp only [beq_iff_eq]
        intro hc
        apply hnd.1
        rw [hc]
        exact List.mem_map_of_mem Employee.id h1
      rw [List.find?_cons_of_neg t hne]
      exact ih hnd.2 h1

/-- Claim C8: the add operation rejects with no mutation and a prompt
notification when name or position is empty or a full-time draft has an
empty branch; on success it appends exactly one employee whose id is the
type prefix followed by the count of same-type employees plus one, forcing
the pool-sentinel branch for part-time drafts; and the id scheme is not
globally unique: adding, adding, deleting the first, then adding the same
type yields two roster entries with the same id. -/
theorem C8_add_employee :
    (∀ (employees : List Employee) (d : EmployeeDraft),
      d.name = "" ∨ d.position = "" ∨
        (d.type = EmpType.fullTime ∧ d.branch = "") →
      handleAddEmployee employees d =
        (employees, some Notice.incompleteData)) ∧
    (∀ (employees : List Employee) (d : EmployeeDraft),
      jsTrim d.name ≠ "" → jsTrim d.position ≠ "" →
      (d.type = EmpType.partTime ∨ jsTrim d.branch ≠ "") →
      handleAddEmployee employees d =
        (employees ++
          [{ id := (if d.type == EmpType.fullTime then "emp" else "pte") ++
              toString
                ((employees.filter (fun e => e.type == d.type)).length + 1),
             name := d.name, position := d.position,
             branch := if d.type == EmpType.partTime then "พาร์ทไทม์"
               else d.branch,
             type := d.type }], none)) ∧
    ¬ ((((handleAddEmployee
          ((handleDeleteEmployee
            ((handleAddEmployee
              ((handleAddEmployee [] draftF).1) draftF).1) [] "emp1").1)
          draftF).1).map Employee.id).Nodup) := by
  refine ⟨?_, ?_, by decide⟩
  · intro employees d h
    rcases h with h | h | h
    · have ht : jsTrim d.name = "" := by rw [h]; decide
      simp [handleAddEmployee, ht]
    · have ht : jsTrim d.position = "" := by rw [h]; decide
      simp [handleAddEmployee, ht]
    · have ht : jsTrim d.branch = "" := by rw [h.2]; decide
      simp [handleAddEmployee, ht, h.1]
  · intro employees d h1 h2 h3
    have hcond : (jsTrim d.name != "" && jsTrim d.position != "" &&
        (d.type == EmpType.partTime || jsTrim d.branch != "")) = true := by
      rcases h3 with h3 | h3 <;> simp [h1, h2, h3]
    unfold handleAddEmployee
    rw [if_pos hcond]

/-- Witness for C8: an empty name is rejected; a valid full-time draft on
an empty roster gets id emp1. -/
theorem C8_witness :
    handleAddEmployee []
      { name := "", position := "p", branch := "A",
        type := EmpType.fullTime } = ([], some Notice.incompleteData) ∧
    handleAddEmployee [] draftF =
      ([{ id := "emp1", name := "n", position := "p", branch := "A",
          type := EmpType.fullTime }], none) := by
  constructor
  · exact C8_add_employee.1 []
      { name := "", position := "p", branch := "A",
        type := EmpType.fullTime } (Or.inl rfl)
  · have h := C8_add_employee.2.1 [] draftF (by decide) (by decide)
      (Or.inr (by decide))
    rw [h]
    decide

/-- Claim C7, amended: getDailyStaffCount returns 0 whenever the clinic is
closed that weekday, and on open days it equals the number of employees
visible at the viewed branch (part-time, or full-time homed there) whose
effective shift per getShiftValue at the viewed branch is a working state —
full-time employees of other branches are excluded even when their
effective shift is a working state; stated for rosters with distinct ids
and stores whose bare tags for part-timers are non-working. -/
theorem C7_amended_headcount (ctx : ScheduleCtx) (sched : MonthlySchedule)
    (dateKey : String) (dayOfWeek : Nat)
    (hids : (ctx.employees.map Employee.id).Nodup)
    (hshape : ∀ e ∈ ctx.employees, e.type = EmpType.partTime →
      ∀ s, getEntry sched dateKey e.id = some (ShiftEntry.tag s) →
        s ≠ "เช้า" ∧ s ≠ "บ่าย") :
    (isClinicDayOffCell ctx.clinicDayOff dayOfWeek = true →
      getDailyStaffCount ctx sched dateKey dayOfWeek = 0) ∧
    (isClinicDayOffCell ctx.clinicDayOff dayOfWeek = false →
      getDailyStaffCount ctx sched dateKey dayOfWeek =
        (ctx.employees.filter (fun e =>
          (e.type == EmpType.partTime || e.branch == ctx.selectedBranch) &&
          (getShiftValue ctx sched e.id dateKey dayOfWeek == "เช้า" ||
           getShiftValue ctx sched e.id dateKey dayOfWeek == "บ่าย"))).length) := by
  constructor
  · intro hclosed
    simp [getDailyStaffCount, hclosed]
  · intro hopen
    unfold getDailyStaffCount
    congr 1
    apply List.filter_congr
    intro e he
    have hfind := find?_id_self hids he
    cases hty : e.type with
    | fullTime =>
      cases hent : getEntry sched dateKey e.id with
      | none => simp [getShiftValue, hfind, hopen, hty, hent]
      | some se =>
        cases se with
        | tag s => simp [getShiftValue, hfind, hopen, hty, hent]
        | working t wb => simp [getShiftValue, hfind, hopen, hty, hent]
    | partTime =>
      cases hent : getEntry sched dateKey e.id with
      | none => simp [getShiftValue, hfind, hopen, hty, hent]
      | some se =>
        cases se with
        | tag s =>
          have hs := hshape e he hty s hent
          simp [getShiftValue, hfind, hopen, hty, hent, hs.1, hs.2]
        | working t wb =>
          by_cases hb : (wb == ctx.selectedBranch) = true
          · simp [getShiftValue, hfind, hopen, hty, hent, hb]
          · simp [getShiftValue, hfind, hopen, hty, hent, hb]

/-- Witness for C7's amended statement at a concrete open day. -/
theorem C7_amended_witness :
    (isClinicDayOffCell ctxC7.clinicDayOff 1 = true →
      getDailyStaffCount ctxC7 schedC7 "2025-06-02" 1 = 0) ∧
    (isClinicDayOffCell ctxC7.clinicDayOff 1 = false →
      getDailyStaffCount ctxC7 schedC7 "2025-06-02" 1 =
        (ctxC7.employees.filter (fun e =>
          (e.type == EmpType.partTime || e.branch == ctxC7.selectedBranch) &&
          (getShiftValue ctxC7 schedC7 e.id "2025-06-02" 1 == "เช้า" ||
           getShiftValue ctxC7 schedC7 e.id "2025-06-02" 1 == "บ่าย"))).length) :=
  C7_amended_headcount ctxC7 schedC7 "2025-06-02" 1 (by decide)
    (by
      intro e he hpt
      simp only [ctxC7, List.mem_cons, List.not_mem_nil, or_false] at he
      subst he
      simp [empF] at hpt)

lemma lookupA_cons_pos {α : Type} (p : String × α) (rest : List (String × α))
    (k : String) (h : (p.1 == k) = true) :
    lookupA (p :: rest) k = some p.2 := by
  simp [lookupA, h]

lemma lookupA_cons_neg {α : Type} (p : String × α) (rest : List (String × α))
    (k : String) (h : ¬ (p.1 == k) = true) :
    lookupA (p :: rest) k = lookupA rest k := by
  simp [lookupA, h]

lemma eraseA_eq_nil_lookupA {α : Type} (l : List (String × α)) (i k : String)
    (h : eraseA l i = []) (hk : k ≠ i) : lookupA l k = none := by
  induction l with
  | nil => rfl
  | cons p rest ih =>
    by_cases hp : (p.1 == i) = true
    · have hp' : p.1 = i := beq_iff_eq.mp hp
      simp only [eraseA, hp, if_pos] at h
      have hnk : ¬ ((p.1 == k) = true) := by
        simp only [beq_iff_eq, hp']
        exact fun hc => hk hc.symm
      rw [lookupA_cons_neg p rest k hnk]
      exact ih h
    · simp only [eraseA, hp, if_neg] at h
      exact absurd h (List.cons_ne_nil _ _)

lemma mem_cascade (sched : MonthlySchedule) (i : String)
    (p : String × List (String × ShiftEntry))
    (h : p ∈ deleteEmployeeCascade sched i) :
    ∃ q ∈ sched, p = (q.1, eraseA q.2 i) := by
  unfold deleteEmployeeCascade at h
  have h1 := List.mem_of_mem_filter h
  rcases List.mem_map.mp h1 with ⟨q, hq, hpq⟩
  exact ⟨q, hq, hpq.symm⟩

lemma keys_cascade_sub (sched : MonthlySchedule) (i : String) (x : String)
    (h : x ∈ (deleteEmployeeCascade sched i).map Prod.fst) :
    x ∈ sched.map Prod.fst := by
  rcases List.mem_map.mp h with ⟨p, hp, hx⟩
  rcases mem_cascade sched i p hp with ⟨q, hq, hpq⟩
  have hq1 : p.1 = q.1 := by rw [hpq]
  rw [← hx, hq1]
  exact List.mem_map_of_mem Prod.fst hq

lemma cascade_lookup_id (sched : MonthlySchedule) (i dk : String) :
    getEntry (deleteEmployeeCascade sched i) dk i = none := by
  unfold getEntry
  cases hl : lookupA (deleteEmployeeCascade sched i) dk with
  | none => rfl
  | some inner =>
    rcases mem_cascade sched i (dk, inner) (lookupA_mem_of_some _ _ _ hl) with
      ⟨q, hq, hpq⟩
    have hinner : inner = eraseA q.2 i := congrArg Prod.snd hpq
    rw [hinner]
    simp [lookupA_eraseA_self]

lemma cascade_cons (p : String × List (String × ShiftEntry))
    (rest : MonthlySchedule) (i : String) :
    deleteEmployeeCascade (p :: rest) i =
      if ((eraseA p.2 i).length != 0) = true
      then (p.1, eraseA p.2 i) :: deleteEmployeeCascade rest i
      else deleteEmployeeCascade rest i := by
  unfold deleteEmployeeCascade
  simp [List.filter_cons]

lemma lookupA_cascade_eq (sched : MonthlySchedule) (i dk : String)
    (houter : (sched.map Prod.fst).Nodup) :
    lookupA (deleteEmployeeCascade sched i) dk =
      (if ((eraseA ((lookupA sched dk).getD []) i).length != 0) = true
       then some (eraseA ((lookupA sched dk).getD []) i) else none) := by
  induction sched with
  | nil => simp [deleteEmployeeCascade, lookupA, eraseA]
  | cons p rest ih =>
    simp only [List.map_cons, List.nodup_cons] at houter
    have ihr := ih houter.2
    rw [cascade_cons]
    by_cases hdk : (p.1 == dk) = true
    · have hdk' : p.1 = dk := beq_iff_eq.mp hdk
      have hrest : lookupA (deleteEmployeeCascade rest i) dk = none := by
        apply lookupA_none_of_not_mem
        intro hc
        apply houter.1
        rw [hdk']
        exact keys_cascade_sub rest i dk hc
      rw [lookupA_cons_pos p rest dk hdk, Option.getD_some]
      by_cases hlen : ((eraseA p.2 i).length != 0) = true
      · rw [if_pos hlen, if_pos hlen]
        exact lookupA_cons_pos (p.1, eraseA p.2 i) _ dk hdk
      · rw [if_neg hlen, if_neg hlen]
        exact hrest
    · rw [lookupA_cons_neg p rest dk hdk]
      by_cases hlen : ((eraseA p.2 i).length != 0) = true
      · rw [if_pos hlen]
        rw [lookupA_cons_neg (p.1, eraseA p.2 i) (deleteEmployeeCascade rest i)
          dk hdk]
        exact ihr
      · rw [if_neg hlen]
        exact ihr

/-- Claim C6: confirmed deletion removes the employee from the roster,
removes that employee's entry from every date, drops every date whose inner
mapping becomes empty, and leaves every other employee's entries untouched
(stated for stores with distinct date keys, as JavaScript objects have). -/
theorem C6_delete_cascade (employees : List Employee) (sched : MonthlySchedule)
    (id : String) (houter : (sched.map Prod.fst).Nodup) :
    (∀ e, e ∈ (handleDeleteEmployee employees sched id).1 ↔
      (e ∈ employees ∧ e.id ≠ id)) ∧
    (∀ dk, getEntry (handleDeleteEmployee employees sched id).2 dk id = none) ∧
    (∀ p ∈ (handleDeleteEmployee employees sched id).2, p.2 ≠ []) ∧
    (∀ dk eid, eid ≠ id →
      getEntry (handleDeleteEmployee employees sched id).2 dk eid =
        getEntry sched dk eid) := by
  refine ⟨?_, ?_, ?_, ?_⟩
  · intro e
    simp [handleDeleteEmployee, List.mem_filter, bne_iff_ne]
  · intro dk
    exact cascade_lookup_id sched id dk
  · intro p hp
    have hkeep := List.of_mem_filter hp
    simp only [bne_iff_ne, ne_eq] at hkeep
    intro hc
    rw [hc] at hkeep
    exact hkeep rfl
  · intro dk eid hne
    show getEntry (deleteEmployeeCascade sched id) dk eid = getEntry sched dk eid
    unfold getEntry
    rw [lookupA_cascade_eq sched id dk houter]
    cases hl : lookupA sched dk with
    | none => simp [eraseA]
    | some inner =>
      simp only [Option.getD_some]
      by_cases hlen : ((eraseA inner id).length != 0) = true
      · simp only [hlen, if_pos]
        exact lookupA_eraseA_ne inner id eid hne
      · simp only [hlen, if_neg]
        have hnil : eraseA inner id = [] := by
          simp only [bne_iff_ne, ne_eq, not_not] at hlen
          exact List.length_eq_zero.mp hlen
        exact (eraseA_eq_nil_lookupA inner id eid hnil hne).symm

/-- Witness for C6: deleting pte1 keeps emp1, erases pte1 from both dates,
drops the date pte1 held alone, and preserves emp1's entry. -/
theorem C6_witness :
    (empF ∈ (handleDeleteEmployee [empP, empF] schedW6 "pte1").1 ↔
      (empF ∈ [empP, empF] ∧ empF.id ≠ "pte1")) ∧
    getEntry (handleDeleteEmployee [empP, empF] schedW6 "pte1").2
      "2025-06-02" "pte1" = none ∧
    getEntry (handleDeleteEmployee [empP, empF] schedW6 "pte1").2
      "2025-06-01" "emp1" = getEntry schedW6 "2025-06-01" "emp1" :=
  ⟨(C6_delete_cascade [empP, empF] schedW6 "pte1" (by decide)).1 empF,
   (C6_delete_cascade [empP, empF] schedW6 "pte1" (by decide)).2.1
     "2025-06-02",
   (C6_delete_cascade [empP, empF] schedW6 "pte1" (by decide)).2.2.2
     "2025-06-01" "emp1" (by decide)⟩

lemma filter_key_nil {α : Type} (l : List (String × α)) (i : String)
    (P : String × α → Bool) (h : i ∉ l.map Prod.fst) :
    l.filter (fun q => q.1 == i && P q) = [] := by
  induction l with
  | nil => rfl
  | cons p rest ih =>
    simp only [List.map_cons, List.mem_cons] at h
    push_neg at h
    have hne : ¬ ((p.1 == i) = true) := by
      simp only [beq_iff_eq]
      exact fun hc => h.1 hc.symm
    simp [List.filter_cons, hne, ih h.2]

lemma filter_key_len_le_one {α : Type} (l : List (String × α)) (i : String)
    (P : String × α → Bool) (hnd : (l.map Prod.fst).Nodup) :
    (l.filter (fun q => q.1 == i && P q)).length ≤ 1 := by
  induction l with
  | nil => simp
  | cons p rest ih =>
    simp only [List.map_cons, List.nodup_cons] at hnd
    by_cases hp : (p.1 == i) = true
    · have hp' : p.1 = i := beq_iff_eq.mp hp
      have hnil : rest.filter (fun q => q.1 == i && P q) = [] := by
        apply filter_key_nil
        rw [← hp']
        exact hnd.1
      by_cases hP : P p = true
      · simp [List.filter_cons, hp, hP, hnil]
      · simp [List.filter_cons, hp, hP, hnil]
    · simp only [List.filter_cons]
      have : (p.1 == i && P p) = false := by simp [hp]
      simp only [this, Bool.false_eq_true, if_neg, if_false]
      exact ih hnd.2

lemma wcount_nil (dk i : String) : workingAssignmentCount [] dk i = 0 := rfl

lemma wcount_cons (p : String × List (String × ShiftEntry))
    (rest : MonthlySchedule) (dk i : String) :
    workingAssignmentCount (p :: rest) dk i =
      (if (p.1 == dk) = true
       then (p.2.filter (fun q => q.1 == i && isWorkingEntry q.2)).length
       else 0) + workingAssignmentCount rest dk i := by
  unfold workingAssignmentCount
  simp [List.sum_cons]

lemma wcount_zero_of_not_mem (sched : MonthlySchedule) (dk i : String)
    (h : dk ∉ sched.map Prod.fst) : workingAssignmentCount sched dk i = 0 := by
  induction sched with
  | nil => rfl
  | cons p rest ih =>
    simp only [List.map_cons, List.mem_cons] at h
    push_neg at h
    have hne : ¬ ((p.1 == dk) = true) := by
      simp only [beq_iff_eq]
      exact fun hc => h.1 hc.symm
    rw [wcount_cons, if_neg hne, ih h.2]

lemma wcount_le_one :
    ∀ (sched : MonthlySchedule) (dk i : String), UniqKeys sched →
      workingAssignmentCount sched dk i ≤ 1 := by
  intro sched
  induction sched with
  | nil =>
    intro dk i _
    simp [wcount_nil]
  | cons p rest ih =>
    intro dk i h
    obtain ⟨houter, hinner⟩ := h
    simp only [List.map_cons, List.nodup_cons] at houter
    have hu : UniqKeys rest :=
      ⟨houter.2, fun q hq => hinner q (List.mem_cons_of_mem _ hq)⟩
    rw [wcount_cons]
    by_cases hp : (p.1 == dk) = true
    · have hp' : p.1 = dk := beq_iff_eq.mp hp
      have hrest : workingAssignmentCount rest dk i = 0 := by
        apply wcount_zero_of_not_mem
        rw [← hp']
        exact houter.1
      have hhead : (p.2.filter
          (fun q => q.1 == i && isWorkingEntry q.2)).length ≤ 1 := by
        simpa using filter_key_len_le_one p.2 i
          (fun q => isWorkingEntry q.2) (hinner p (List.mem_cons_self _ _))
      rw [if_pos hp, hrest]
      omega
    · rw [if_neg hp]
      have := ih dk i hu
      omega

lemma uniqKeys_nil : UniqKeys [] := ⟨List.nodup_nil, by simp⟩

lemma uniqKeys_setEntry (sched : MonthlySchedule) (dk i : String)
    (v : ShiftEntry) (h : UniqKeys sched) : UniqKeys (setEntry sched dk i v) := by
  obtain ⟨houter, hinner⟩ := h
  constructor
  · exact keys_insertA_nodup sched dk _ houter
  · intro p hp
    rcases mem_insertA _ _ _ p hp with h1 | h1
    · exact hinner p h1
    · subst h1
      apply keys_insertA_nodup
      cases hl : lookupA sched dk with
      | none => simp
      | some inner =>
        simp only [Option.getD_some]
        exact hinner (dk, inner) (lookupA_mem_of_some _ _ _ hl)

lemma handleShiftChange_fst_cases (ctx : ScheduleCtx) (sched : MonthlySchedule)
    (employeeId dateKey : String) (dayOfWeek : Nat) (value : String) :
    (handleShiftChange ctx sched employeeId dateKey dayOfWeek value).1 =
      sched ∨
    ∃ v, (handleShiftChange ctx sched employeeId dateKey dayOfWeek value).1 =
      setEntry sched dateKey employeeId v := by
  unfold handleShiftChange
  cases hfind : ctx.employees.find? (fun e => e.id == employeeId) with
  | none => exact Or.inl rfl
  | some employee =>
    dsimp only
    by_cases h1 : isClinicDayOffCell ctx.clinicDayOff dayOfWeek = true
    · rw [if_pos h1]
      by_cases h2 : (value != "ปิด") = true
      · rw [if_pos h2]
        exact Or.inl rfl
      · rw [if_neg h2]
        exact Or.inr ⟨_, rfl⟩
    · rw [if_neg h1]
      cases employee.type with
      | partTime =>
        by_cases h3 : (value == "เช้า" || value == "บ่าย") = true
        · rw [if_pos h3]
          cases conflictScan ctx.branches ctx.selectedBranch
              (getEntry sched dateKey employee.id) with
          | some wb => exact Or.inl rfl
          | none => exact Or.inr ⟨_, rfl⟩
        · rw [if_neg h3]
          exact Or.inr ⟨_, rfl⟩
      | fullTime => exact Or.inr ⟨_, rfl⟩

lemma uniqKeys_cascade (sched : MonthlySchedule) (i : String)
    (h : UniqKeys sched) : UniqKeys (deleteEmployeeCascade sched i) := by
  obtain ⟨houter, hinner⟩ := h
  constructor
  · have hmapped : ((sched.map (fun p => (p.1, eraseA p.2 i))).map
        Prod.fst) = sched.map Prod.fst := by
      rw [List.map_map]
      rfl
    have hsub : ((deleteEmployeeCascade sched i).map Prod.fst).Sublist
        ((sched.map (fun p => (p.1, eraseA p.2 i))).map Prod.fst) := by
      apply List.Sublist.map
      unfold deleteEmployeeCascade
      exact List.filter_sublist _
    rw [hmapped] at hsub
    exact hsub.nodup houter
  · intro p hp
    rcases mem_cascade sched i p hp with ⟨q, hq, hpq⟩
    subst hpq
    exact ((keys_eraseA_sublist q.2 i).nodup (hinner q hq))

lemma foldl_preserve {β : Type} (f : MonthlySchedule → β → MonthlySchedule)
    (hf : ∀ m b, UniqKeys m → UniqKeys (f m b)) :
    ∀ (l : List β) (m : MonthlySchedule), UniqKeys m →
      UniqKeys (List.foldl f m l) := by
  intro l
  induction l with
  | nil =>
    intro m hm
    exact hm
  | cons b t ih =>
    intro m hm
    exact ih _ (hf m b hm)

lemma uniqKeys_decode (doc : ScheduleDoc) : UniqKeys (decodeSchedule doc) := by
  unfold decodeSchedule
  apply foldl_preserve
  · intro m p hm
    apply foldl_preserve
    · intro m2 q hm2
      exact uniqKeys_setEntry m2 doc.date p.1 q.2 hm2
    · exact hm
  · exact uniqKeys_nil

lemma reach_uniqKeys (s : SysState) (h : Reach s) : UniqKeys s.sched := by
  induction h with
  | init => exact uniqKeys_nil
  | shiftChange s branches selB cdo empId dk value dow hr ih =>
    rcases handleShiftChange_fst_cases ⟨s.employees, branches, selB, cdo⟩
        s.sched empId dk dow value with h1 | ⟨v', h1⟩
    · show UniqKeys (handleShiftChange _ _ _ _ _ _).1
      rw [h1]
      exact ih
    · show UniqKeys (handleShiftChange _ _ _ _ _ _).1
      rw [h1]
      exact uniqKeys_setEntry s.sched dk empId v' ih
  | addEmployee s d hr ih => exact ih
  | editEmployee s eid ed hr ih => exact ih
  | deleteEmployee s i hr ih => exact uniqKeys_cascade s.sched i ih
  | load s docs hr ih =>
    cases docs with
    | nil => exact ih
    | cons doc rest => exact uniqKeys_decode doc

/-- Claim C5: in every state reachable by the system's operations from the
empty startup state, the schedule store holds at most one
working-assignment object for any employee on any date. -/
theorem C5_at_most_one_working (s : SysState) (h : Reach s)
    (dateKey empId : String) :
    workingAssignmentCount s.sched dateKey empId ≤ 1 :=
  wcount_le_one s.sched dateKey empId (reach_uniqKeys s h)

/-- Witness for C5: the state reached by adding the part-time draft and
then assigning a morning shift at branch A. -/
theorem C5_witness :
    workingAssignmentCount
      (handleShiftChange
        ⟨(handleAddEmployee [] draftP).1, ["A", "B"], "A", "ไม่มี"⟩
        [] "pte1" "2025-06-01" 0 "เช้า").1
      "2025-06-01" "pte1" ≤ 1 :=
  C5_at_most_one_working
    ⟨(handleAddEmployee [] draftP).1,
      (handleShiftChange
        ⟨(handleAddEmployee [] draftP).1, ["A", "B"], "A", "ไม่มี"⟩
        [] "pte1" "2025-06-01" 0 "เช้า").1⟩
    (Reach.shiftChange ⟨(handleAddEmployee [] draftP).1, []⟩ ["A", "B"] "A"
      "ไม่มี" "pte1" "2025-06-01" "เช้า" 0
      (Reach.addEmployee ⟨[], []⟩ draftP Reach.init))
    "2025-06-01" "pte1"

end TimetableCVD
